import Mathlib

/-!
Verification development for the tender-monitor repository.

The embedding models, at value level, the two dedup/persistence modules of
the repository and the aggregation loop of its entry point:

* `src/history.py` — `_make_key`, `load_history`, `save_history`,
  `filter_new_tenders`;
* `src/scraper.py` — `match_keywords`, `load_seen`/`save_seen` storage, and
  the per-source aggregation loop of `main` (lines 477-513).

Python strings are Lean `String`s; the builtins `str.lower` and `str.strip`
are modelled by `pyLower` and `pyStrip` below (character-map and
whitespace-trim over the character list, matching Python for the ASCII
texts the program handles).  Python dicts are association lists in
insertion order; Python sets of strings are `List String` with
membership-checked insertion.  JSON documents handled by the external
`json` module are modelled at value level by the `Json` inductive: the
library's `dump`/`load` are the identity on that value, and the repository
code around them (existence check, exception fallback, `isinstance` shape
check, truncating open-for-write) is modelled operation by operation.
-/

namespace TenderMonitor

/-- Model of Python `str.lower` (ASCII case mapping over the characters). -/
def pyLower (s : String) : String :=
  ⟨s.data.map Char.toLower⟩

/-- Model of Python `str.strip` (drop leading and trailing whitespace). -/
def pyStrip (s : String) : String :=
  ⟨((s.data.dropWhile Char.isWhitespace).reverse.dropWhile Char.isWhitespace).reverse⟩

/-- Model of the Python idiom `x or ""` applied to `dict.get`: an absent or
`None` field, and an empty field, both coerce to the empty string. -/
def orEmpty (o : Option String) : String :=
  o.getD ""

/-- Model of the Python substring test `kw in text`. -/
def substrB (kw text : String) : Bool :=
  decide (kw.data <:+: text.data)

/-- JSON values: the value-level model of the documents handled by the
external `json` module ( `json.dump` / `json.load` are modelled as storing
and returning this value unchanged; the repository code around them is
modelled explicitly). -/
inductive Json where
  | null : Json
  | bool (b : Bool) : Json
  | num (n : Int) : Json
  | str (s : String) : Json
  | arr (elems : List Json) : Json
  | obj (fields : List (String × Json)) : Json

/-- The in-memory history mapping of `history.py`: a Python dict from
identity key to a provenance dict, in insertion order. -/
abbrev HistoryMap : Type :=
  List (String × Json)

/-- A tender record as read by `history.py` (`t.get("source")`,
`t.get("title")`, `t.get("url")` — each field may be absent/None). -/
structure Tender where
  source : Option String
  title : Option String
  url : Option String
deriving DecidableEq

/-- Normalized url of a tender: `(tender.get("url") or "").strip().lower()`
from `_make_key` in `src/history.py`. -/
def normUrl (t : Tender) : String :=
  pyLower (pyStrip (orEmpty t.url))

/-- Normalized title of a tender: `(tender.get("title") or "").strip().lower()`
from `_make_key` in `src/history.py`. -/
def normTitle (t : Tender) : String :=
  pyLower (pyStrip (orEmpty t.title))

/-- Embedding of `_make_key` (src/history.py lines 8-15):
the f-string `f"{url}||{title}"` over the normalized fields. -/
def makeKey (t : Tender) : String :=
  normUrl t ++ "||" ++ normTitle t

/-- The provenance dict `filter_new_tenders` stores under a new key:
`{"source": t.get("source"), "title": t.get("title"), "url": t.get("url")}`,
with `None` serialized as JSON null. -/
def provOf (t : Tender) : Json :=
  Json.obj
    [("source", (t.source.map Json.str).getD Json.null),
     ("title", (t.title.map Json.str).getD Json.null),
     ("url", (t.url.map Json.str).getD Json.null)]

/-- Model of the Python membership test `key in history` on the dict. -/
def containsKey (h : HistoryMap) (k : String) : Bool :=
  h.any (fun p => p.1 = k)

/-- Embedding of `filter_new_tenders` (src/history.py lines 47-79).

The Python function mutates its `history` dict argument in place
(`history[key] = {...}`; its docstring: "update history in-memory"), so the
embedding threads the dict explicitly: the second component of the result
is the value the caller's `history` variable holds after the call.  The
first component is the returned `new_tenders` list.  An assignment under a
key absent from the dict appends the pair, matching Python dict insertion
order. -/
def filterNewTenders : List Tender → HistoryMap → List Tender × HistoryMap
  | [], history => ([], history)
  | t :: ts, history =>
    let key := makeKey t
    if key = "" then
      let r := filterNewTenders ts history
      (t :: r.1, r.2)
    else if containsKey history key then
      filterNewTenders ts history
    else
      let r := filterNewTenders ts (history ++ [(key, provOf t)])
      (t :: r.1, r.2)

/-- The single logical storage name used by `history.py` (`HISTORY_FILE`). -/
def historyPath : String :=
  "seen_tenders.json"

/-- On-disk state of one stored document.  `truncated` stands for a file
that has been opened for writing (mode "w" truncates) but whose serialized
content is not yet completely written; `complete j` is a fully written
document holding the JSON value `j`. -/
inductive DocState where
  | truncated : DocState
  | complete (doc : Json) : DocState

/-- The file system, as a mapping from path to document state. -/
abbrev Disk : Type :=
  List (String × DocState)

/-- Look up the document stored at a path. -/
def getFile : Disk → String → Option DocState
  | [], _ => none
  | (q, t) :: rest, p => if q = p then some t else getFile rest p

/-- Store a document state at a path, replacing any previous one. -/
def setFile : Disk → String → DocState → Disk
  | [], p, s => [(p, s)]
  | (q, t) :: rest, p, s => if q = p then (p, s) :: rest else (q, t) :: setFile rest p s

/-- File operations that a save routine can issue.  `openTrunc` is
`open(path, "w")` (truncates the file), `writeDoc` completes the write of a
serialized document, `rename` is an atomic replace of `dst` by `src`. -/
inductive FileOp where
  | openTrunc (path : String)
  | writeDoc (path : String) (doc : Json)
  | rename (src dst : String)

/-- Effect of one file operation on the disk. -/
def applyOp (d : Disk) : FileOp → Disk
  | FileOp.openTrunc p => setFile d p DocState.truncated
  | FileOp.writeDoc p doc => setFile d p (DocState.complete doc)
  | FileOp.rename src dst =>
    match getFile d src with
    | none => d
    | some s => setFile d dst s

/-- Run a sequence of file operations. -/
def runOps (d : Disk) (ops : List FileOp) : Disk :=
  ops.foldl applyOp d

/-- Every disk state reached while running a sequence of file operations,
the initial state included: the possible crash points. -/
def statesDuring (d : Disk) (ops : List FileOp) : List Disk :=
  ops.scanl applyOp d

/-- Embedding of `save_history` (src/history.py lines 39-44) as its file
operation sequence: `with open(HISTORY_FILE, "w") as f: json.dump(history, f)`
opens the stored document itself for writing (truncating it) and then
writes the serialized mapping into it.  No temporary file and no rename is
involved. -/
def saveHistoryOps (h : HistoryMap) : List FileOp :=
  [FileOp.openTrunc historyPath, FileOp.writeDoc historyPath (Json.obj h)]

/-- Outcome of trying to read and JSON-parse the stored history document:
the file may be absent, unreadable/corrupt (any exception from `open` or
`json.load`), or readable with a parsed JSON value. -/
inductive ReadResult where
  | absent : ReadResult
  | unreadable : ReadResult
  | content (j : Json) : ReadResult

/-- Shape check `isinstance(data, dict)` on a parsed JSON value. -/
def isObjB : Json → Bool
  | Json.obj _ => true
  | _ => false

/-- Embedding of `load_history` (src/history.py lines 18-36): missing file
and any read/parse exception give the empty mapping, a parsed value that is
not a dict gives the empty mapping, and a parsed dict is returned as the
history. -/
def loadHistory : ReadResult → HistoryMap
  | ReadResult.absent => []
  | ReadResult.unreadable => []
  | ReadResult.content j =>
    match j with
    | Json.obj fields => fields
    | _ => []

/-- Reading the stored history document from the disk: a missing file is
`absent`, a truncated/partial file fails to parse (`unreadable`), a
complete document parses to its JSON value. -/
def readStored (d : Disk) : ReadResult :=
  match getFile d historyPath with
  | none => ReadResult.absent
  | some DocState.truncated => ReadResult.unreadable
  | some (DocState.complete j) => ReadResult.content j

/-- A tender as built by the scrapers in `src/scraper.py` (for example
lines 151-159): fields `id`, `title`, `url`, `tier1`, `tier2`, where `id`
is set to the raw detail-page url string. -/
structure ScrapedTender where
  id : String
  title : String
  url : String
  tier1 : List String
  tier2 : List String
deriving DecidableEq

/-- Embedding of `match_keywords` (src/scraper.py lines 47-55): lowercase
the text once, collect the Tier1 keywords occurring as substrings, return
`(False, [], [])` when none does, and only otherwise collect Tier2. -/
def matchKeywords (text : String) (tier1 tier2 : List String) :
    Bool × List String × List String :=
  let lowered := pyLower text
  let tier1Hits := tier1.filter (fun kw => substrB kw lowered)
  if tier1Hits.isEmpty then (false, [], [])
  else (true, tier1Hits, tier2.filter (fun kw => substrB kw lowered))

/-- Model of `set.add` on the Python set of seen ids (sets have no
duplicates; insertion order is the model's bookkeeping only). -/
def addSeen (s : List String) (x : String) : List String :=
  if x ∈ s then s else s ++ [x]

/-- Inner loop of `main` (src/scraper.py lines 496-499) over one source's
tender list: `if t["id"] not in seen` — the membership test is against the
pre-run `seen`, while `new_items` and `updated_seen` accumulate. -/
def aggTenders (seen : List String) (name : String) :
    List ScrapedTender → List (String × ScrapedTender) × List String →
    List (String × ScrapedTender) × List String
  | [], acc => acc
  | t :: ts, acc =>
    if t.id ∈ seen then aggTenders seen name ts acc
    else aggTenders seen name ts (acc.1 ++ [(name, t)], addSeen acc.2 t.id)

/-- Outer loop of `main` over the source list, in source order. -/
def aggSources (seen : List String) :
    List (String × List ScrapedTender) →
    List (String × ScrapedTender) × List String →
    List (String × ScrapedTender) × List String
  | [], acc => acc
  | s :: rest, acc => aggSources seen rest (aggTenders seen s.1 s.2 acc)

/-- The aggregation step of `main` (src/scraper.py lines 477-499): starting
from `new_items = []` and `updated_seen = set(seen)` (a copy), every
source's tenders are scanned in order; the result is `(new_items,
updated_seen)`. -/
def aggregate (seen : List String) (srcs : List (String × List ScrapedTender)) :
    List (String × ScrapedTender) × List String :=
  aggSources seen srcs ([], seen)

/-- All (source name, tender) pairs of a run, in source order then adapter
order: the order in which `main` examines candidates. -/
def sourcePairs (srcs : List (String × List ScrapedTender)) :
    List (String × ScrapedTender) :=
  srcs.flatMap (fun s => s.2.map (fun t => (s.1, t)))

/-- A tender with url and title both absent: the unkeyable posting of the
edge case policy. -/
def tEmpty : Tender :=
  ⟨none, none, none⟩

/-- A keyed tender used to exhibit the in-place history update. -/
def tKeyed : Tender :=
  ⟨some "SRC", some "T", some "U"⟩

/-- Tender with title "t" and url "a". -/
def t9a : Tender :=
  ⟨none, some "t", some "a"⟩

/-- Tender with title "t" and url "b": url changed, title kept. -/
def t9b : Tender :=
  ⟨none, some "t", some "b"⟩

/-- Tender with title "b||c" and url "a". -/
def t9c : Tender :=
  ⟨none, some "b||c", some "a"⟩

/-- Tender with title "c" and url "a||b": both fields changed from `t9c`. -/
def t9d : Tender :=
  ⟨none, some "c", some "a||b"⟩

/-- A matching posting as produced under source "A". -/
def tA : ScrapedTender :=
  ⟨"u1", "alpha", "u1", [], []⟩

/-- The same posting (same id/url) as produced under source "B". -/
def tB : ScrapedTender :=
  ⟨"u1", "beta", "u1", [], []⟩

/-- A posting with url "v" and one title. -/
def tD1 : ScrapedTender :=
  ⟨"v", "title one", "v", [], []⟩

/-- A posting with the same url "v" and another title. -/
def tD2 : ScrapedTender :=
  ⟨"v", "title two", "v", [], []⟩

/-- The previously persisted history used to exhibit the non-atomic save. -/
def prevHist : HistoryMap :=
  [("k", Json.null)]

/-- A disk already holding a complete persisted history document. -/
def diskWithPrev : Disk :=
  [(historyPath, DocState.complete (Json.obj prevHist))]

/-- Whether a file operation addresses the stored history document directly
and is not a rename: the shape of a write-in-place save, the opposite of the
write-then-replace strategy. -/
def opTouchesOnlyStore : FileOp → Bool
  | FileOp.openTrunc p => p == historyPath
  | FileOp.writeDoc p _ => p == historyPath
  | FileOp.rename _ _ => false

theorem makeKey_ne_empty (t : Tender) : makeKey t ≠ "" := by
  intro hcontra
  have hl := congrArg String.length hcontra
  rw [makeKey, String.length_append, String.length_append] at hl
  have h2 : ("||" : String).length = 2 := rfl
  have h0 : ("" : String).length = 0 := rfl
  rw [h2, h0] at hl
  omega

theorem getFile_setFile_self (d : Disk) (p : String) (s : DocState) :
    getFile (setFile d p s) p = some s := by
  induction d with
  | nil => simp [setFile, getFile]
  | cons q rest ih =>
    by_cases hq : q.1 = p
    · simp [setFile, getFile, hq]
    · simp [setFile, getFile, hq, ih]

theorem setFile_setFile (d : Disk) (p : String) (a b : DocState) :
    setFile (setFile d p a) p b = setFile d p b := by
  induction d with
  | nil => simp [setFile]
  | cons q rest ih =>
    by_cases hq : q.1 = p
    · simp [setFile, hq]
    · simp [setFile, hq, ih]

theorem filterNewTenders_snd_append (ts : List Tender) (h : HistoryMap) :
    ∃ added, (filterNewTenders ts h).2 = h ++ added := by
  induction ts generalizing h with
  | nil => exact ⟨[], by simp [filterNewTenders]⟩
  | cons t ts ih =>
    by_cases hk : makeKey t = ""
    · obtain ⟨a, ha⟩ := ih h
      exact ⟨a, by simp [filterNewTenders, hk, ha]⟩
    · cases hc : containsKey h (makeKey t)
      · obtain ⟨a, ha⟩ := ih (h ++ [(makeKey t, provOf t)])
        refine ⟨(makeKey t, provOf t) :: a, ?_⟩
        simp [filterNewTenders, hk, hc, ha]
      · obtain ⟨a, ha⟩ := ih h
        exact ⟨a, by simp [filterNewTenders, hk, hc, ha]⟩

theorem containsKey_append_left {h : HistoryMap} {k : String}
    (hmem : containsKey h k = true) (h2 : HistoryMap) :
    containsKey (h ++ h2) k = true := by
  simp [containsKey, List.any_append]
  simp [containsKey] at hmem
  exact Or.inl hmem

theorem filterNewTenders_mono {h : HistoryMap} {k : String}
    (hmem : containsKey h k = true) (ts : List Tender) :
    containsKey (filterNewTenders ts h).2 k = true := by
  obtain ⟨a, ha⟩ := filterNewTenders_snd_append ts h
  rw [ha]
  exact containsKey_append_left hmem a

theorem filterNewTenders_adds (ts : List Tender) (h : HistoryMap) :
    ∀ t ∈ ts, containsKey (filterNewTenders ts h).2 (makeKey t) = true := by
  induction ts generalizing h with
  | nil => intro t ht; cases ht
  | cons t0 ts ih =>
    intro t ht
    have hk0 : ¬(makeKey t0 = "") := makeKey_ne_empty t0
    rcases List.mem_cons.mp ht with heq | htail
    · subst heq
      cases hc : containsKey h (makeKey t)
      · have hself : containsKey (h ++ [(makeKey t, provOf t)]) (makeKey t) = true := by
          simp [containsKey, List.any_append]
        simp only [filterNewTenders, hk0, if_false, hc, if_neg, ite_false, Bool.false_eq_true]
        simpa [filterNewTenders, hk0, hc] using filterNewTenders_mono hself ts
      · simpa [filterNewTenders, hk0, hc] using filterNewTenders_mono hc ts
    · cases hc : containsKey h (makeKey t0)
      · simpa [filterNewTenders, hk0, hc] using
          ih (h ++ [(makeKey t0, provOf t0)]) t htail
      · simpa [filterNewTenders, hk0, hc] using ih h t htail

theorem filterNewTenders_none_new (ts : List Tender) (h : HistoryMap)
    (hall : ∀ t ∈ ts, containsKey h (makeKey t) = true) :
    (filterNewTenders ts h).1 = [] := by
  induction ts with
  | nil => rfl
  | cons t ts ih =>
    have hk : ¬(makeKey t = "") := makeKey_ne_empty t
    have hc : containsKey h (makeKey t) = true := hall t (List.mem_cons_self t ts)
    simpa [filterNewTenders, hk, hc] using ih (fun u hu => hall u (List.mem_cons_of_mem t hu))

theorem mem_addSeen {l : List String} {x : String} (hx : x ∈ l) (y : String) :
    x ∈ addSeen l y := by
  unfold addSeen
  split
  · exact hx
  · exact List.mem_append_left _ hx

theorem mem_addSeen_self (l : List String) (x : String) : x ∈ addSeen l x := by
  unfold addSeen
  split
  · next h => exact h
  · exact List.mem_append_right _ (List.mem_singleton.mpr rfl)

theorem aggTenders_fst (seen : List String) (name : String) (ts : List ScrapedTender)
    (acc : List (String × ScrapedTender) × List String) :
    (aggTenders seen name ts acc).1 =
      acc.1 ++ (ts.filter (fun t => !decide (t.id ∈ seen))).map (fun t => (name, t)) := by
  induction ts generalizing acc with
  | nil => simp [aggTenders]
  | cons t ts ih =>
    by_cases hc : t.id ∈ seen
    · simp [aggTenders, hc, ih, List.filter_cons]
    · simp [aggTenders, hc, ih, List.filter_cons]

theorem mem_aggTenders_snd (seen : List String) (name : String) (ts : List ScrapedTender)
    (acc : List (String × ScrapedTender) × List String) {x : String} (hx : x ∈ acc.2) :
    x ∈ (aggTenders seen name ts acc).2 := by
  induction ts generalizing acc with
  | nil => exact hx
  | cons t ts ih =>
    by_cases hc : t.id ∈ seen
    · simpa [aggTenders, hc] using ih acc hx
    · simpa [aggTenders, hc] using ih (acc.1 ++ [(name, t)], addSeen acc.2 t.id) (mem_addSeen hx t.id)

theorem aggTenders_id_mem (seen : List String) (name : String) (ts : List ScrapedTender)
    (acc : List (String × ScrapedTender) × List String)
    (hsub : ∀ y ∈ seen, y ∈ acc.2) :
    ∀ t ∈ ts, t.id ∈ (aggTenders seen name ts acc).2 := by
  induction ts generalizing acc with
  | nil => intro t ht; cases ht
  | cons t0 ts ih =>
    intro t ht
    rcases List.mem_cons.mp ht with heq | htail
    · subst heq
      by_cases hc : t.id ∈ seen
      · simpa [aggTenders, hc] using mem_aggTenders_snd seen name ts acc (hsub _ hc)
      · have hself : t.id ∈ addSeen acc.2 t.id := mem_addSeen_self acc.2 t.id
        simpa [aggTenders, hc] using
          mem_aggTenders_snd seen name ts (acc.1 ++ [(name, t)], addSeen acc.2 t.id) hself
    · by_cases hc : t0.id ∈ seen
      · simpa [aggTenders, hc] using ih acc hsub t htail
      · have hsub2 : ∀ y ∈ seen, y ∈ (acc.1 ++ [(name, t0)], addSeen acc.2 t0.id).2 :=
          fun y hy => mem_addSeen (hsub y hy) t0.id
        simpa [aggTenders, hc] using
          ih (acc.1 ++ [(name, t0)], addSeen acc.2 t0.id) hsub2 t htail

theorem mem_aggSources_snd (seen : List String) (srcs : List (String × List ScrapedTender))
    (acc : List (String × ScrapedTender) × List String) {x : String} (hx : x ∈ acc.2) :
    x ∈ (aggSources seen srcs acc).2 := by
  induction srcs generalizing acc with
  | nil => exact hx
  | cons s rest ih =>
    simpa [aggSources] using
      ih (aggTenders seen s.1 s.2 acc) (mem_aggTenders_snd seen s.1 s.2 acc hx)

theorem aggSources_id_mem (seen : List String) (srcs : List (String × List ScrapedTender))
    (acc : List (String × ScrapedTender) × List String)
    (hsub : ∀ y ∈ seen, y ∈ acc.2) :
    ∀ p ∈ sourcePairs srcs, p.2.id ∈ (aggSources seen srcs acc).2 := by
  induction srcs generalizing acc with
  | nil => intro p hp; simp [sourcePairs] at hp
  | cons s rest ih =>
    intro p hp
    rw [sourcePairs, List.flatMap_cons] at hp
    rcases List.mem_append.mp hp with hleft | hright
    · obtain ⟨t, ht, hpt⟩ := List.mem_map.mp hleft
      subst hpt
      simpa [aggSources] using
        mem_aggSources_snd seen rest (aggTenders seen s.1 s.2 acc)
          (aggTenders_id_mem seen s.1 s.2 acc hsub t ht)
    · have hsub2 : ∀ y ∈ seen, y ∈ (aggTenders seen s.1 s.2 acc).2 :=
        fun y hy => mem_aggTenders_snd seen s.1 s.2 acc (hsub y hy)
      simpa [aggSources] using ih (aggTenders seen s.1 s.2 acc) hsub2 p hright

theorem filter_map_pair (name : String) (seen : List String) (ts : List ScrapedTender) :
    (ts.map (fun t => (name, t))).filter (fun p => !decide (p.2.id ∈ seen)) =
      (ts.filter (fun t => !decide (t.id ∈ seen))).map (fun t => (name, t)) := by
  induction ts with
  | nil => rfl
  | cons t ts ih => by_cases hc : t.id ∈ seen <;> simp [hc, ih]

theorem aggSources_fst (seen : List String) (srcs : List (String × List ScrapedTender))
    (acc : List (String × ScrapedTender) × List String) :
    (aggSources seen srcs acc).1 =
      acc.1 ++ (sourcePairs srcs).filter (fun p => !decide (p.2.id ∈ seen)) := by
  induction srcs generalizing acc with
  | nil => simp [aggSources, sourcePairs]
  | cons s rest ih =>
    simp [aggSources, ih, aggTenders_fst, sourcePairs, List.flatMap_cons,
      List.filter_append, filter_map_pair]

theorem aggregate_fst (seen : List String) (srcs : List (String × List ScrapedTender)) :
    (aggregate seen srcs).1 = (sourcePairs srcs).filter (fun p => !decide (p.2.id ∈ seen)) := by
  simpa using aggSources_fst seen srcs ([], seen)

theorem aggregate_snd_mem (seen : List String) (srcs : List (String × List ScrapedTender)) :
    ∀ p ∈ sourcePairs srcs, p.2.id ∈ (aggregate seen srcs).2 :=
  aggSources_id_mem seen srcs ([], seen) (fun _ hy => hy)

/-- C1 counterexample: with an empty pre-run history, source "A" preceding
source "B", and both producing a posting with the same id, `main` reports
the posting twice — once under each source — instead of exactly once
attributed to "A": the seen-check `t["id"] not in seen` is made against the
pre-run set only, not against the set updated by earlier iterations of the
same run. -/
theorem c1_counterexample :
    tA.id = tB.id ∧
    (aggregate [] [("A", [tA]), ("B", [tB])]).1 = [("A", tA), ("B", tB)] ∧
    (aggregate [] [("A", [tA]), ("B", [tB])]).1.length ≠ 1 := by
  refine ⟨rfl, ?_, ?_⟩
  · decide
  · decide

/-- C1 amended: the aggregation loop of `main` checks each candidate only
against the pre-run seen set, so `new_items` is exactly the sequence of
(source, posting) pairs, in source order then adapter order, whose id is
not in the pre-run history — a posting carrying the same id under several
sources (or several times under one source) in the same run is reported
once per occurrence, the occurrence under the earlier source first. -/
theorem c1_amended (seen : List String) (srcs : List (String × List ScrapedTender)) :
    (aggregate seen srcs).1 =
      (sourcePairs srcs).filter (fun p => !decide (p.2.id ∈ seen)) :=
  aggregate_fst seen srcs

/-- C2: `match_keywords` lowercases the text; if no Tier1 keyword occurs as
a substring of the lowered text it returns `(False, [], [])` regardless of
Tier2; otherwise it returns `(True, tier1_hits, tier2_hits)` where each hit
list is exactly the taxonomy-ordered sublist of keywords occurring as
substrings of the lowered text. -/
theorem c2_classifier (text : String) (tier1 tier2 : List String) :
    ((∀ kw ∈ tier1, substrB kw (pyLower text) = false) →
        matchKeywords text tier1 tier2 = (false, [], [])) ∧
    ((∃ kw ∈ tier1, substrB kw (pyLower text) = true) →
        matchKeywords text tier1 tier2 =
          (true, tier1.filter (fun kw => substrB kw (pyLower text)),
            tier2.filter (fun kw => substrB kw (pyLower text)))) := by
  constructor
  · intro hnone
    have hfil : tier1.filter (fun kw => substrB kw (pyLower text)) = [] :=
      List.filter_eq_nil_iff.mpr (fun kw hkw => by simp [hnone kw hkw])
    simp [matchKeywords, hfil]
  · rintro ⟨kw, hkw, hsub⟩
    have hmem : kw ∈ tier1.filter (fun k => substrB k (pyLower text)) :=
      List.mem_filter.mpr ⟨hkw, hsub⟩
    have hne : (tier1.filter (fun k => substrB k (pyLower text))).isEmpty = false :=
      List.isEmpty_eq_false.mpr (List.ne_nil_of_mem hmem)
    simp [matchKeywords, hne]

/-- C2 witness: the classifier on a concrete matching text, reproducing the
scenario from the design: Tier1 hit "ocean" (in taxonomy order, "marine"
missing), Tier2 hit "consultant". -/
theorem c2_classifier_witness :
    matchKeywords "Senior Ocean Policy Consultant" ["marine", "ocean"] ["consultant"] =
      (true, ["ocean"], ["consultant"]) := by
  have h := (c2_classifier "Senior Ocean Policy Consultant" ["marine", "ocean"] ["consultant"]).2
    ⟨"ocean", by decide, by decide⟩
  rw [h]
  decide

/-- C3: the spec (and the code's own comment) says a posting with url and
title both empty is treated as always-new and never added to the history;
the code instead derives the non-empty key "||" (the guard `if not key` is
dead since the key always contains the delimiter), stores it, and
suppresses every later unkeyable posting.  Evaluating `filter_new_tenders`
on two unkeyable postings and an empty history: only the first is reported,
and the history gains the key "||". -/
theorem c3_unkeyable_is_stored :
    makeKey tEmpty = "||" ∧
    filterNewTenders [tEmpty, tEmpty] [] =
      ([tEmpty],
        [("||", Json.obj [("source", Json.null), ("title", Json.null), ("url", Json.null)])]) :=
  ⟨rfl, rfl⟩

/-- C4: running the dedup step a second time with the same candidates and
the history produced by the first run yields no new items, both for the
aggregation loop of `main` (over any pre-run seen set and source lists) and
for `filter_new_tenders` (over any tender list and starting history). -/
theorem c4_idempotent :
    (∀ (seen : List String) (srcs : List (String × List ScrapedTender)),
        (aggregate ((aggregate seen srcs).2) srcs).1 = []) ∧
    (∀ (ts : List Tender) (h : HistoryMap),
        (filterNewTenders ts ((filterNewTenders ts h).2)).1 = []) := by
  constructor
  · intro seen srcs
    rw [aggregate_fst]
    apply List.filter_eq_nil_iff.mpr
    intro p hp
    simp [aggregate_snd_mem seen srcs p hp]
  · intro ts h
    exact filterNewTenders_none_new ts _ (fun t ht => filterNewTenders_adds ts h t ht)

/-- C5 counterexample: `filter_new_tenders` does mutate the history value it
is given: after a call on one keyed tender and an (empty) input history,
the caller's history dict is no longer equal to its pre-call value. -/
theorem c5_counterexample : (filterNewTenders [tKeyed] []).2 ≠ [] := by
  have hev : (filterNewTenders [tKeyed] []).2 = [("u||t", provOf tKeyed)] := rfl
  rw [hev]
  exact List.cons_ne_nil _ _

/-- C5 amended: `filter_new_tenders` updates the given history mapping in
place (as its docstring states): after the call the caller's mapping is the
input mapping extended — by appending only — with a provenance entry for
each newly reported keyed tender; no existing entry is removed or
overwritten.  No separate copy is made. -/
theorem c5_amended (ts : List Tender) (h : HistoryMap) :
    ∃ added, (filterNewTenders ts h).2 = h ++ added :=
  filterNewTenders_snd_append ts h

/-- C6 counterexample: `save_history` is write-in-place, not
write-then-replace: every file operation it issues addresses the stored
document directly (none is a rename of a temporary file), and at the crash
point after the truncating open the stored document is a truncated file —
the previously persisted history does not survive. -/
theorem c6_counterexample :
    (saveHistoryOps prevHist).all opTouchesOnlyStore = true ∧
    getFile ((statesDuring diskWithPrev (saveHistoryOps prevHist)).getD 1 []) historyPath =
      some DocState.truncated ∧
    DocState.truncated ≠ DocState.complete (Json.obj prevHist) := by
  refine ⟨rfl, rfl, fun hcontra => ?_⟩
  exact DocState.noConfusion hcontra

/-- C6 amended: `save_history` opens the stored document itself with mode
"w" (truncating it) and then writes the serialized mapping into it in
place; its intermediate disk states are exactly: the initial disk, the disk
with the stored document truncated, and the disk with the new document
complete — so a failure between truncation and the completed write leaves a
truncated file in place of the previously persisted history. -/
theorem c6_amended (h : HistoryMap) (d : Disk) :
    saveHistoryOps h =
      [FileOp.openTrunc historyPath, FileOp.writeDoc historyPath (Json.obj h)] ∧
    statesDuring d (saveHistoryOps h) =
      [d, setFile d historyPath DocState.truncated,
        setFile d historyPath (DocState.complete (Json.obj h))] := by
  refine ⟨rfl, ?_⟩
  simp [statesDuring, saveHistoryOps, List.scanl_cons, List.scanl_nil, applyOp, setFile_setFile]

/-- C7: `load_history` returns the empty mapping whenever the storage file
is absent, unreadable (any exception while opening or parsing), or parses
to a value that is not a dict; the function is total, so it returns
normally to the caller in every case. -/
theorem c7_load_fail_open (r : ReadResult)
    (hbad : r = ReadResult.absent ∨ r = ReadResult.unreadable ∨
      ∃ j, r = ReadResult.content j ∧ isObjB j = false) :
    loadHistory r = [] := by
  rcases hbad with h | h | ⟨j, hj, hobj⟩
  · rw [h]; rfl
  · rw [h]; rfl
  · subst hj
    cases j <;> first | rfl | simp [isObjB] at hobj

/-- C7 witness: a structurally invalid stored document (a JSON array, not a
dict) loads as the empty mapping. -/
theorem c7_load_fail_open_witness :
    loadHistory (ReadResult.content (Json.arr [])) = [] :=
  c7_load_fail_open _ (Or.inr (Or.inr ⟨Json.arr [], rfl, rfl⟩))

/-- C8: saving any in-memory history to storage and loading it back yields
the same mapping, on any starting disk: the saved document is a dict, so
the existence check, the parse, and the `isinstance` shape check of
`load_history` all pass and return the stored mapping unchanged. -/
theorem c8_history_roundtrip (h : HistoryMap) (d : Disk) :
    loadHistory (readStored (runOps d (saveHistoryOps h))) = h := by
  have h1 : runOps d (saveHistoryOps h) =
      setFile (setFile d historyPath DocState.truncated) historyPath
        (DocState.complete (Json.obj h)) := rfl
  rw [h1, setFile_setFile]
  simp [readStored, getFile_setFile_self, loadHistory]

/-- C9 counterexample: changing the url alone (title held equal after
normalization) does change the Identity Key, contrary to the claim that it
"does not break identity"; and a wholesale change of both fields can keep
the key unchanged when the fields contain the delimiter ("a" + "b||c"
versus "a||b" + "c" both give "a||b||c"). -/
theorem c9_counterexample :
    (normTitle t9a = normTitle t9b ∧ normUrl t9a ≠ normUrl t9b ∧
      makeKey t9a ≠ makeKey t9b) ∧
    (normUrl t9c ≠ normUrl t9d ∧ normTitle t9c ≠ normTitle t9d ∧
      makeKey t9c = makeKey t9d) := by
  decide

/-- C9 amended: the Identity Key is the delimited composite of the
normalized (trimmed, lowercased) url and title.  Two postings whose
normalized url and normalized title agree get the same key; when one
normalized field is held equal, the keys agree exactly when the other
normalized field agrees — so a change to either normalized field alone
always changes the key, while a change to both fields at once may or may
not (the delimiter can occur inside the fields). -/
theorem c9_amended (t u : Tender) :
    (normUrl t = normUrl u ∧ normTitle t = normTitle u → makeKey t = makeKey u) ∧
    (normTitle t = normTitle u → (makeKey t = makeKey u ↔ normUrl t = normUrl u)) ∧
    (normUrl t = normUrl u → (makeKey t = makeKey u ↔ normTitle t = normTitle u)) := by
  refine ⟨?_, ?_, ?_⟩
  · rintro ⟨h1, h2⟩
    rw [makeKey, makeKey, h1, h2]
  · intro h2
    constructor
    · intro hk
      rw [makeKey, makeKey, h2] at hk
      have hd := congrArg String.data hk
      simp only [String.data_append] at hd
      exact String.ext (List.append_cancel_right (List.append_cancel_right hd))
    · intro h1
      rw [makeKey, makeKey, h1, h2]
  · intro h1
    constructor
    · intro hk
      rw [makeKey, makeKey, h1] at hk
      have hd := congrArg String.data hk
      simp only [String.data_append] at hd
      exact String.ext (List.append_cancel_left hd)
    · intro h2
      rw [makeKey, makeKey, h1, h2]

/-- C9 witness: two postings differing only in whitespace/case of the url
and title (and in their source) receive the same Identity Key. -/
theorem c9_amended_witness :
    makeKey ⟨none, some " T ", some "U"⟩ = makeKey ⟨some "x", some "t", some " u"⟩ :=
  (c9_amended ⟨none, some " T ", some "U"⟩ ⟨some "x", some "t", some " u"⟩).1
    ⟨by decide, by decide⟩

/-- C10 counterexample: two tenders with equal raw urls (ids) but different
titles, produced in the same run while the id is not yet persisted, are
both reported — "at most the first encountered across the store's lifetime"
fails within a single run, because the membership check is against the
pre-run store only. -/
theorem c10_counterexample :
    tD1.url = tD2.url ∧ tD1.title ≠ tD2.title ∧
    (aggregate [] [("S", [tD1, tD2])]).1 = [("S", tD1), ("S", tD2)] ∧
    ¬((aggregate [] [("S", [tD1, tD2])]).1.length ≤ 1) := by
  decide

/-- C10 amended: in the main pipeline a (source, tender) pair is reported
exactly when it occurs in the run's candidates and its raw `id` string (the
unmodified url, compared without trimming or lowercasing, independent of
the title) is not in the pre-run store; so a persisted id is never reported
again in later runs, while all occurrences in the run before persistence
are each reported. -/
theorem c10_amended (seen : List String) (srcs : List (String × List ScrapedTender))
    (name : String) (t : ScrapedTender) :
    (name, t) ∈ (aggregate seen srcs).1 ↔
      ((name, t) ∈ sourcePairs srcs ∧ t.id ∉ seen) := by
  rw [aggregate_fst]
  simp [List.mem_filter]

/-- C10 witness: a concrete pair with its id absent from the store is
reported. -/
theorem c10_amended_witness :
    ("S", tD1) ∈ (aggregate [] [("S", [tD1, tD2])]).1 :=
  (c10_amended [] [("S", [tD1, tD2])] "S" tD1).mpr (by decide)

end TenderMonitor
